import Mathlib

/-!
Verification of the Will.IAM permission core: the hierarchical wildcard
matcher (`ResourceHierarchy.Contains`, `ResourceHierarchy.PermissionMatches`),
the ownership-level lattice (`OwnershipLevel.Less`), the permission string
codec (`ValidatePermission`, `BuildPermission`, `Permission.String`), the
authorization check (`Permission.IsPresent`) from `models/permission.go`,
and the transactional bulk-attribution workflow (`Attribute`,
`AttributeToEmails`) from `usecases/permissions.go`.

Strings are Lean `String`s.  The Go code splits and joins exclusively on
the fixed separator `"::"`; `stringsSplit` / `stringsJoin` below implement
Go's `strings.Split(s, "::")` and `strings.Join(l, "::")` (leftmost,
non-overlapping scan; splitting the empty string yields `[""]`).
-/

set_option autoImplicit false

/-- Model of Go `strings.Split(s, "::")` at the character-list level:
scan left to right; each non-overlapping occurrence of `"::"` ends the
current piece. The result is always non-empty. -/
def splitCols : List Char → List (List Char)
  | [] => [[]]
  | ':' :: ':' :: rest => [] :: splitCols rest
  | c :: rest =>
    match splitCols rest with
    | [] => [[c]]
    | h :: t => (c :: h) :: t

/-- Model of Go `strings.Join(l, "::")` at the character-list level. -/
def joinCols : List (List Char) → List Char
  | [] => []
  | [x] => x
  | x :: y :: t => x ++ ':' :: ':' :: joinCols (y :: t)

/-- Go `strings.Split(s, "::")`. -/
def stringsSplit (s : String) : List String :=
  (splitCols s.data).map String.mk

/-- Go `strings.Join(l, "::")`. -/
def stringsJoin (l : List String) : String :=
  String.mk (joinCols (l.map String.data))

theorem splitCols_ne_nil : ∀ cs : List Char, splitCols cs ≠ [] := by
  intro cs
  induction cs using splitCols.induct with
  | case1 => simp [splitCols]
  | case2 rest ih => simp [splitCols]
  | case3 c rest hcol hnil ih => exact absurd hnil ih
  | case4 c rest hcol hd t hcons ih =>
    rw [splitCols]
    · rw [hcons]
      simp
    · exact hcol

theorem joinCols_cons_cons (c : Char) (h : List Char) (t : List (List Char)) :
    joinCols ((c :: h) :: t) = c :: joinCols (h :: t) := by
  cases t with
  | nil => rfl
  | cons y t' => simp [joinCols]

theorem joinCols_splitCols : ∀ cs : List Char, joinCols (splitCols cs) = cs := by
  intro cs
  induction cs using splitCols.induct with
  | case1 => rfl
  | case2 rest ih =>
    rw [splitCols]
    obtain ⟨h, t, hs⟩ : ∃ h t, splitCols rest = h :: t := by
      cases hs : splitCols rest with
      | nil => exact absurd hs (splitCols_ne_nil rest)
      | cons h t => exact ⟨h, t, rfl⟩
    rw [hs]
    rw [hs] at ih
    simp [joinCols, ih]
  | case3 c rest hcol hnil ih => exact absurd hnil (splitCols_ne_nil rest)
  | case4 c rest hcol hd t hcons ih =>
    rw [splitCols]
    · rw [hcons]
      rw [hcons] at ih
      rw [joinCols_cons_cons, ih]
    · exact hcol

theorem stringsJoin_stringsSplit (s : String) :
    stringsJoin (stringsSplit s) = s := by
  unfold stringsJoin stringsSplit
  rw [List.map_map]
  have hmap : ∀ l : List (List Char), (l.map String.mk).map String.data = l := by
    intro l
    induction l with
    | nil => rfl
    | cons x xs ih => simp [ih]
  rw [show String.data ∘ String.mk = id from rfl]
  simp [joinCols_splitCols]

/-! ## `models/permission.go`: data model -/

/-- OwnershipLevel defines the holding rights about a resource
(`type OwnershipLevel string`). -/
abbrev OwnershipLevel := String

/-- OwnershipLevels are all possible holding rights: Owner `"RO"`,
Lender `"RL"` (the `OwnershipLevels` struct variable). -/
structure OwnershipLevelsT where
  Owner : OwnershipLevel
  Lender : OwnershipLevel

def OwnershipLevels : OwnershipLevelsT :=
  { Owner := "RO", Lender := "RL" }

/-- `Less` returns true if `o < oo`; Lender < Owner. -/
def OwnershipLevel.Less (o oo : OwnershipLevel) : Bool :=
  if o == OwnershipLevels.Lender && oo == OwnershipLevels.Owner then
    true
  else
    false

/-- Action is defined by IAM clients (`type Action string`; the name
`Action` itself is taken by Mathlib, hence the prime). -/
abbrev Action' := String

/-- ResourceHierarchy is either a complete or an open hierarchy to something
(`type ResourceHierarchy string`). -/
abbrev ResourceHierarchy := String

/-- Loop body of `PermissionMatches`: `acc` holds the first `i` segments
(`parts[:i]`), the argument list holds `parts[i:]`; the loop stops at a
`"*"` segment and otherwise emits `strings.Join(parts[:i], "::") + "::*"`. -/
def pmAux (acc : List String) : List String → List String
  | [] => []
  | t :: ts =>
    if t == "*" then []
    else (stringsJoin acc ++ "::*") :: pmAux (acc ++ [t]) ts

/-- `PermissionMatches` returns a slice of all possible ways to check if a
service account has any level of permission over this ResourceHierarchy.
Example: `"x::y::z"` gives `["*", "x::*", "x::y::*", "x::y::z"]`. -/
def ResourceHierarchy.PermissionMatches (rh : ResourceHierarchy) : List String :=
  let whole : String := rh
  if whole == "*" then [whole]
  else
    let parts := stringsSplit whole
    ("*" :: pmAux (parts.take 1) (parts.drop 1)) ++ [whole]

/-- The private `resourceHierarchy` struct holding the split segments. -/
structure resourceHierarchy where
  size : Nat
  hierarchy : List String

/-- The private `buildResourceHierarchy` helper. -/
def buildResourceHierarchy (rh : ResourceHierarchy) : resourceHierarchy :=
  let parts := stringsSplit rh
  { size := parts.length, hierarchy := parts }

/-- The index walk of `Contains`: iterate over `other`'s segments; fail when
`self` is exhausted first, succeed on a `"*"` segment of `self`, fail on the
first differing segment pair, succeed when `other` is exhausted. -/
def containsLoop : List String → List String → Bool
  | _, [] => true
  | [], _ :: _ => false
  | s :: ss, o :: os =>
    if s == "*" then true
    else if o != s then false
    else containsLoop ss os

/-- `Contains` checks whether `rh.Hierarchy` contains `orh.Hierarchy`. -/
def ResourceHierarchy.Contains (rh orh : ResourceHierarchy) : Bool :=
  let rhh := buildResourceHierarchy rh
  let orhh := buildResourceHierarchy orh
  if rhh.size > orhh.size then false
  else containsLoop rhh.hierarchy orhh.hierarchy

/-- Permission is bound to a role and defines the ownership level of an
action over a resource. -/
structure Permission where
  ID : String := ""
  RoleID : String := ""
  Service : String := ""
  OwnershipLevel : OwnershipLevel := ""
  Action : Action' := ""
  ResourceHierarchy : ResourceHierarchy := ""
  Alias : String := ""
deriving DecidableEq, Repr

/-- `ValidatePermission` validates a permission in string format; returns
the Go `(bool, error)` pair as `Bool × Option String` (an error is the
message string). -/
def ValidatePermission (str : String) : Bool × Option String :=
  let parts := stringsSplit str
  if parts.length < 4 then
    (false, some "Incomplete permission. Expected format: Service::OwnershipLevel::Action::\x7bResourceHierarchy\x7d")
  else
    let ol : OwnershipLevel := parts.getD 1 ""
    if ol != OwnershipLevels.Owner && ol != OwnershipLevels.Lender then
      (false, some "OwnershipLevel needs to be RO or RL")
    else if parts.any (fun part => part == "") then
      (false, some "No parts can be empty")
    else
      (true, none)

/-- `BuildPermission` transforms a string into the struct; Go's
`(Permission, error)` pair is `Except String Permission`. -/
def BuildPermission (str : String) : Except String Permission :=
  let v := ValidatePermission str
  if v.1 then
    let parts := stringsSplit str
    Except.ok
      { Service := parts.getD 0 ""
        OwnershipLevel := parts.getD 1 ""
        Action := parts.getD 2 ""
        ResourceHierarchy := stringsJoin (parts.drop 3) }
  else
    Except.error (v.2.getD "")

/-- `IsPresent` checks if a permission is satisfied in a slice: the loop
`continue`s past held permissions failing the service / action / ownership
tests and returns true on the first remaining one whose hierarchy contains
the candidate's. -/
def Permission.IsPresent (p : Permission) (permissions : List Permission) : Bool :=
  permissions.any fun pp =>
    if (pp.Service != "*" && pp.Service != p.Service) ||
        (pp.Action != "*" && pp.Action != p.Action) ||
        OwnershipLevel.Less pp.OwnershipLevel p.OwnershipLevel then
      false
    else
      ResourceHierarchy.Contains pp.ResourceHierarchy p.ResourceHierarchy

/-- `String` converts a permission to its equivalent string format
`Service::OwnershipLevel::Action::ResourceHierarchy`. -/
def Permission.String (p : Permission) : String :=
  p.Service ++ "::" ++ p.OwnershipLevel ++ "::" ++ p.Action ++ "::" ++ p.ResourceHierarchy


/-! ## Lemmas about `Contains` -/

theorem containsLoop_cons_cons (s o : String) (ss os : List String) :
    containsLoop (s :: ss) (o :: os) =
      if s = "*" then true else if o = s then containsLoop ss os else false := by
  by_cases hs : s = "*"
  · simp [containsLoop, hs]
  · by_cases ho : o = s
    · simp [containsLoop, hs, ho]
    · simp [containsLoop, hs, ho]

theorem containsLoop_iff : ∀ (sp op : List String), sp.length ≤ op.length →
    (containsLoop sp op = true ↔
      (sp = op ∨ ∃ i, i < sp.length ∧ sp.getD i "" = "*" ∧ sp.take i = op.take i)) := by
  intro sp
  induction sp with
  | nil =>
    intro op hlen
    cases op with
    | nil => simp [containsLoop]
    | cons o os => simp [containsLoop]
  | cons s ss ih =>
    intro op hlen
    cases op with
    | nil => simp at hlen
    | cons o os =>
      simp only [List.length_cons, Nat.add_le_add_iff_right] at hlen
      rw [containsLoop_cons_cons]
      by_cases hs : s = "*"
      · rw [if_pos hs]
        exact iff_of_true rfl (Or.inr ⟨0, by simp, by simp [hs], by simp⟩)
      · rw [if_neg hs]
        by_cases ho : o = s
        · subst ho
          rw [if_pos rfl, ih os hlen]
          constructor
          · rintro (rfl | ⟨j, hj, hstar, htake⟩)
            · exact Or.inl rfl
            · refine Or.inr ⟨j + 1, by simpa using hj, by simpa using hstar, ?_⟩
              simp [List.take_succ_cons, htake]
          · rintro (heq | ⟨i, hi, hstar, htake⟩)
            · refine Or.inl ?_
              injection heq
            · match i, hi, hstar, htake with
              | 0, _, hstar, _ => exact absurd (by simpa using hstar) hs
              | j + 1, hi, hstar, htake =>
                refine Or.inr ⟨j, by simpa using hi, by simpa using hstar, ?_⟩
                simp only [List.take_succ_cons] at htake
                injection htake
        · rw [if_neg ho]
          refine iff_of_false (by simp) ?_
          rintro (heq | ⟨i, hi, hstar, htake⟩)
          · refine ho ?_
            injection heq with h1 h2
            exact h1.symm
          · match i, hi, hstar, htake with
            | 0, _, hstar, _ => exact hs (by simpa using hstar)
            | j + 1, _, _, htake =>
              simp only [List.take_succ_cons] at htake
              refine ho ?_
              injection htake with h1 h2
              exact h1.symm

/-- Claim C2: for every pair of resource hierarchies `self` and `other`,
`Contains(self, other)` is true iff `self`'s `::`-split segments are a
prefix of (or wildcard-terminate within) `other`'s segments: false when
`self` has more segments; otherwise true exactly when the segment lists are
identical, or some `self` segment is `"*"` and the segments before it agree
with `other`'s (the walk returns true at the wildcard, false at the first
divergence or when `self` runs out first). -/
theorem claim_c2_contains (self other : ResourceHierarchy) :
    ResourceHierarchy.Contains self other = true ↔
      ((stringsSplit self).length ≤ (stringsSplit other).length ∧
        (stringsSplit self = stringsSplit other ∨
          ∃ i, i < (stringsSplit self).length ∧
            (stringsSplit self).getD i "" = "*" ∧
            (stringsSplit self).take i = (stringsSplit other).take i)) := by
  rw [show ResourceHierarchy.Contains self other =
      (if (stringsSplit self).length > (stringsSplit other).length then false
        else containsLoop (stringsSplit self) (stringsSplit other)) from rfl]
  by_cases hgt : (stringsSplit other).length < (stringsSplit self).length
  · rw [if_pos (by exact hgt)]
    refine iff_of_false (by simp) ?_
    rintro ⟨hle, -⟩
    omega
  · rw [if_neg (by exact hgt)]
    rw [containsLoop_iff _ _ (by omega)]
    constructor
    · intro h
      exact ⟨by omega, h⟩
    · rintro ⟨-, h⟩
      exact h

/-- Witness for C2 at the claim's own examples: `"a::*"` contains
`"a::b::c"` (wildcard absorption) and `"a::b"` does not contain
`"a::b::c"`. -/
theorem claim_c2_contains_witness :
    ResourceHierarchy.Contains "a::*" "a::b::c" = true ∧
    ResourceHierarchy.Contains "a::b" "a::b::c" = false :=
  ⟨(claim_c2_contains "a::*" "a::b::c").mpr
      ⟨by decide, Or.inr ⟨1, by decide, by decide, by decide⟩⟩,
    by decide⟩

/-- Claim C10: if `self` splits into strictly more `::`-segments than
`other`, `Contains(self, other)` is false even when `self` is
wildcard-terminated: the size comparison precedes the wildcard walk. -/
theorem claim_c10_size_check (self other : ResourceHierarchy)
    (h : (stringsSplit other).length < (stringsSplit self).length) :
    ResourceHierarchy.Contains self other = false := by
  rw [show ResourceHierarchy.Contains self other =
      (if (stringsSplit self).length > (stringsSplit other).length then false
        else containsLoop (stringsSplit self) (stringsSplit other)) from rfl]
  rw [if_pos (by exact h)]

/-- Witness for C10: `Contains("a::*", "a")` is false although `"a::*"` is
wildcard-terminated (its segment 1 is `"*"`). -/
theorem claim_c10_size_check_witness :
    ResourceHierarchy.Contains "a::*" "a" = false ∧
      1 < (stringsSplit "a::*").length ∧ (stringsSplit "a::*").getD 1 "" = "*" :=
  ⟨claim_c10_size_check "a::*" "a" (by decide), by decide, by decide⟩

/-! ## `PermissionMatches` against its specification -/

/-- Written from Claim C6's words: the match surface of `rh`, from least to
most specific — the universal wildcard `"*"`, then the wildcard-terminated
proper prefixes of `rh`'s segments of increasing length, stopping before
(and excluding) a `"*"` segment of `rh` (the prefix whose wildcard would
stand where `rh` itself has `"*"` is not emitted), and finally the complete
literal `rh`; the single-element `["*"]` when `rh` is exactly `"*"`. -/
def specPermissionMatches (rh : String) : List String :=
  if rh = "*" then ["*"]
  else
    let parts := stringsSplit rh
    ("*" :: (List.range ((parts.drop 1).takeWhile (fun t => t != "*")).length).map
        (fun j => stringsJoin (parts.take (j + 1)) ++ "::*")) ++ [rh]

theorem pmAux_eq : ∀ (ts acc : List String),
    pmAux acc ts =
      (List.range ((ts.takeWhile (fun t => t != "*")).length)).map
        (fun j => stringsJoin (acc ++ ts.take j) ++ "::*") := by
  intro ts
  induction ts with
  | nil => intro acc; rfl
  | cons t ts' ih =>
    intro acc
    by_cases ht : t = "*"
    · subst ht
      simp [pmAux]
    · rw [show pmAux acc (t :: ts') = (stringsJoin acc ++ "::*") :: pmAux (acc ++ [t]) ts' by
          simp [pmAux, ht]]
      rw [show (t :: ts').takeWhile (fun u => u != "*")
            = t :: ts'.takeWhile (fun u => u != "*") by simp [List.takeWhile_cons, ht]]
      simp only [List.length_cons, List.range_succ_eq_map, List.map_cons, List.map_map]
      congr 1
      · simp
      · rw [ih (acc ++ [t])]
        refine List.map_congr_left ?_
        intro j hj
        simp [List.take_succ_cons, List.append_assoc]

/-- Claim C6: for every resource hierarchy `rh`, `PermissionMatches(rh)`
returns, from least to most specific, the universal wildcard `"*"`, then
each wildcard-terminated proper prefix of `rh`'s segments of increasing
length — stopping before (and excluding) a segment of `rh` that is itself
`"*"` — and finally the complete literal `rh`; when `rh` is exactly `"*"`
the result is `["*"]`. -/
theorem claim_c6_permissionMatches (rh : ResourceHierarchy) :
    ResourceHierarchy.PermissionMatches rh = specPermissionMatches rh := by
  by_cases h : rh = "*"
  · subst h
    rfl
  · rw [show ResourceHierarchy.PermissionMatches rh =
        ("*" :: pmAux ((stringsSplit rh).take 1) ((stringsSplit rh).drop 1)) ++ [rh] by
        simp [ResourceHierarchy.PermissionMatches, h]]
    rw [show specPermissionMatches rh =
        ("*" :: (List.range
              (((stringsSplit rh).drop 1).takeWhile (fun t => t != "*")).length).map
            (fun j => stringsJoin ((stringsSplit rh).take (j + 1)) ++ "::*")) ++ [rh] by
        simp [specPermissionMatches, h]]
    rw [pmAux_eq]
    congr 2
    refine List.map_congr_left ?_
    intro j hj
    rw [Nat.add_comm j 1, List.take_add]

/-- Witness for C6: the source's own example `"x::y::z"`, and the
`rh = "*"` special case. -/
theorem claim_c6_permissionMatches_witness :
    ResourceHierarchy.PermissionMatches "x::y::z" = specPermissionMatches "x::y::z" ∧
    ResourceHierarchy.PermissionMatches "x::y::z" = ["*", "x::*", "x::y::*", "x::y::z"] ∧
    ResourceHierarchy.PermissionMatches "*" = ["*"] :=
  ⟨claim_c6_permissionMatches "x::y::z", by decide, by decide⟩

/-! ## `ValidatePermission` -/

theorem any_empty_iff (l : List String) :
    (l.any (fun part => part == "")) = true ↔ "" ∈ l := by
  rw [List.any_eq_true]
  constructor
  · rintro ⟨x, hx, hq⟩
    rw [show x = "" by simpa using hq] at hx
    exact hx
  · intro h
    exact ⟨"", h, by simp⟩

theorem validate_lt4 (s : String) (h4 : (stringsSplit s).length < 4) :
    ValidatePermission s = (false, some "Incomplete permission. Expected format: Service::OwnershipLevel::Action::\x7bResourceHierarchy\x7d") := by
  simp [ValidatePermission, h4]

theorem validate_badOL (s : String) (h4 : ¬ (stringsSplit s).length < 4)
    (hro : (stringsSplit s).getD 1 "" ≠ "RO")
    (hrl : (stringsSplit s).getD 1 "" ≠ "RL") :
    ValidatePermission s = (false, some "OwnershipLevel needs to be RO or RL") := by
  simp only [List.getD_eq_getElem?_getD] at hro hrl
  simp [ValidatePermission, h4, OwnershipLevels, hro, hrl]

theorem validate_emptyPart (s : String) (h4 : ¬ (stringsSplit s).length < 4)
    (hol : (stringsSplit s).getD 1 "" = "RO" ∨ (stringsSplit s).getD 1 "" = "RL")
    (he : "" ∈ stringsSplit s) :
    ValidatePermission s = (false, some "No parts can be empty") := by
  have hany : ((stringsSplit s).any (fun part => part == "")) = true :=
    (any_empty_iff _).mpr he
  simp only [List.getD_eq_getElem?_getD] at hol
  rcases hol with h | h
  · simp [ValidatePermission, h4, OwnershipLevels, h, hany]
  · simp [ValidatePermission, h4, OwnershipLevels, h, hany]

theorem validate_ok (s : String) (h4 : ¬ (stringsSplit s).length < 4)
    (hol : (stringsSplit s).getD 1 "" = "RO" ∨ (stringsSplit s).getD 1 "" = "RL")
    (he : ¬ "" ∈ stringsSplit s) :
    ValidatePermission s = (true, none) := by
  have hany : ¬ ((stringsSplit s).any (fun part => part == "")) = true :=
    fun habs => he ((any_empty_iff _).mp habs)
  simp only [List.getD_eq_getElem?_getD] at hol
  rcases hol with h | h
  · simp [ValidatePermission, h4, OwnershipLevels, h, hany]
  · simp [ValidatePermission, h4, OwnershipLevels, h, hany]

/-- Claim C4: `ValidatePermission(s)` splits `s` on `"::"` and signals an
error (with `ok` false) iff the split yields fewer than 4 parts, or the
second part is neither `"RO"` nor `"RL"`, or some part is empty; each
failure carries the message naming the violated rule, and otherwise it
returns true with no error. -/
theorem claim_c4_validatePermission (s : String) :
    (((ValidatePermission s).1 = false ∧ ((ValidatePermission s).2).isSome = true) ↔
      ((stringsSplit s).length < 4 ∨
        ((stringsSplit s).getD 1 "" ≠ "RO" ∧ (stringsSplit s).getD 1 "" ≠ "RL") ∨
        "" ∈ stringsSplit s)) ∧
    ((stringsSplit s).length < 4 →
      ValidatePermission s = (false, some "Incomplete permission. Expected format: Service::OwnershipLevel::Action::\x7bResourceHierarchy\x7d")) ∧
    (¬ (stringsSplit s).length < 4 →
      (stringsSplit s).getD 1 "" ≠ "RO" → (stringsSplit s).getD 1 "" ≠ "RL" →
      ValidatePermission s = (false, some "OwnershipLevel needs to be RO or RL")) ∧
    (¬ (stringsSplit s).length < 4 →
      ((stringsSplit s).getD 1 "" = "RO" ∨ (stringsSplit s).getD 1 "" = "RL") →
      "" ∈ stringsSplit s →
      ValidatePermission s = (false, some "No parts can be empty")) ∧
    (¬ (stringsSplit s).length < 4 →
      ((stringsSplit s).getD 1 "" = "RO" ∨ (stringsSplit s).getD 1 "" = "RL") →
      ¬ "" ∈ stringsSplit s →
      ValidatePermission s = (true, none)) := by
  refine ⟨?_, validate_lt4 s, validate_badOL s, validate_emptyPart s, validate_ok s⟩
  by_cases h4 : (stringsSplit s).length < 4
  · rw [validate_lt4 s h4]
    exact iff_of_true (by simp) (Or.inl h4)
  · by_cases hro : (stringsSplit s).getD 1 "" = "RO"
    · by_cases he : "" ∈ stringsSplit s
      · rw [validate_emptyPart s h4 (Or.inl hro) he]
        exact iff_of_true (by simp) (Or.inr (Or.inr he))
      · rw [validate_ok s h4 (Or.inl hro) he]
        refine iff_of_false (by simp) ?_
        rintro (h | ⟨h, -⟩ | h)
        · exact h4 h
        · exact h hro
        · exact he h
    · by_cases hrl : (stringsSplit s).getD 1 "" = "RL"
      · by_cases he : "" ∈ stringsSplit s
        · rw [validate_emptyPart s h4 (Or.inr hrl) he]
          exact iff_of_true (by simp) (Or.inr (Or.inr he))
        · rw [validate_ok s h4 (Or.inr hrl) he]
          refine iff_of_false (by simp) ?_
          rintro (h | ⟨-, h⟩ | h)
          · exact h4 h
          · exact h hrl
          · exact he h
      · rw [validate_badOL s h4 hro hrl]
        exact iff_of_true (by simp) (Or.inr (Or.inl ⟨hro, hrl⟩))

/-- Witness for C4: an invalid ownership code is rejected with `ok = false`
and a present error, and a valid string passes. -/
theorem claim_c4_validatePermission_witness :
    ((ValidatePermission "iam::RX::create::role").1 = false ∧
      ((ValidatePermission "iam::RX::create::role").2).isSome = true) ∧
    ¬((ValidatePermission "iam::RO::create::role").1 = false ∧
      ((ValidatePermission "iam::RO::create::role").2).isSome = true) :=
  ⟨(claim_c4_validatePermission "iam::RX::create::role").1.mpr
      (Or.inr (Or.inl ⟨by decide, by decide⟩)),
    by decide⟩

/-! ## `BuildPermission` / `Permission.String` round trip -/

theorem stringsJoin_cons (a b : String) (t : List String) :
    stringsJoin (a :: b :: t) = a ++ "::" ++ stringsJoin (b :: t) := by
  cases a with
  | mk ad =>
    show String.mk (joinCols (ad :: (b :: t).map String.data))
      = String.mk ad ++ "::" ++ String.mk (joinCols ((b :: t).map String.data))
    rw [show joinCols (ad :: (b :: t).map String.data)
        = ad ++ ':' :: ':' :: joinCols ((b :: t).map String.data) by
        rw [List.map_cons, joinCols]]
    rw [show String.mk ad ++ "::" ++ String.mk (joinCols ((b :: t).map String.data))
        = String.mk ((ad ++ [':', ':']) ++ joinCols ((b :: t).map String.data)) from rfl]
    exact congrArg String.mk (by simp)

theorem exists_four_cons (l : List String) (hl : 4 ≤ l.length) :
    ∃ a b c d rest, l = a :: b :: c :: d :: rest := by
  match l with
  | a :: b :: c :: d :: rest => exact ⟨a, b, c, d, rest, rfl⟩
  | [] => simp at hl
  | [_] => simp at hl
  | [_, _] => simp at hl
  | [_, _, _] => simp at hl

/-- Claim C5: for every permission string `s` that splits on `"::"` into at
least 4 non-empty parts whose second part is `"RO"` or `"RL"`,
`BuildPermission(s)` succeeds and `String()` of the result equals `s`
(covering both the exactly-4-parts case and hierarchies with embedded
`"::"`, since `parts[3:]` are rejoined exactly). -/
theorem claim_c5_roundtrip (s : String)
    (h4 : 4 ≤ (stringsSplit s).length)
    (hol : (stringsSplit s).getD 1 "" = "RO" ∨ (stringsSplit s).getD 1 "" = "RL")
    (hne : ¬ "" ∈ stringsSplit s) :
    ∃ p : Permission, BuildPermission s = Except.ok p ∧ Permission.String p = s := by
  have hv : ValidatePermission s = (true, none) := validate_ok s (by omega) hol hne
  obtain ⟨p0, p1, p2, p3, rest, hsp⟩ := exists_four_cons (stringsSplit s) h4
  refine ⟨{ Service := p0, OwnershipLevel := p1, Action := p2,
            ResourceHierarchy := stringsJoin (p3 :: rest) }, ?_, ?_⟩
  · simp [BuildPermission, hv, hsp]
  · have hjoin : stringsJoin (stringsSplit s) = s := stringsJoin_stringsSplit s
    rw [hsp, stringsJoin_cons, stringsJoin_cons, stringsJoin_cons] at hjoin
    show p0 ++ "::" ++ p1 ++ "::" ++ p2 ++ "::" ++ stringsJoin (p3 :: rest) = s
    rw [← hjoin]
    simp only [String.append_assoc]

/-- Witness for C5 at `"iam::RO::create::role"`. -/
theorem claim_c5_roundtrip_witness :
    ∃ p : Permission, BuildPermission "iam::RO::create::role" = Except.ok p ∧
      Permission.String p = "iam::RO::create::role" :=
  claim_c5_roundtrip "iam::RO::create::role" (by decide) (Or.inl (by decide)) (by decide)

/-! ## `IsPresent` -/

theorem isPresent_body_iff (p pp : Permission) :
    ((if (pp.Service != "*" && pp.Service != p.Service) ||
        (pp.Action != "*" && pp.Action != p.Action) ||
        OwnershipLevel.Less pp.OwnershipLevel p.OwnershipLevel then false
      else ResourceHierarchy.Contains pp.ResourceHierarchy p.ResourceHierarchy) = true) ↔
      ((pp.Service = "*" ∨ pp.Service = p.Service) ∧
        (pp.Action = "*" ∨ pp.Action = p.Action) ∧
        OwnershipLevel.Less pp.OwnershipLevel p.OwnershipLevel = false ∧
        ResourceHierarchy.Contains pp.ResourceHierarchy p.ResourceHierarchy = true) := by
  cases hg : ((pp.Service != "*" && pp.Service != p.Service) ||
      (pp.Action != "*" && pp.Action != p.Action) ||
      OwnershipLevel.Less pp.OwnershipLevel p.OwnershipLevel) with
  | true =>
    rw [if_pos rfl]
    refine iff_of_false (by simp) ?_
    rintro ⟨hs, ha, hl, hc⟩
    simp only [Bool.or_eq_true, Bool.and_eq_true, bne_iff_ne, ne_eq] at hg
    rcases hg with (⟨h1, h2⟩ | ⟨h1, h2⟩) | h
    · rcases hs with h | h
      · exact h1 h
      · exact h2 h
    · rcases ha with h | h
      · exact h1 h
      · exact h2 h
    · rw [hl] at h
      exact Bool.false_ne_true h
  | false =>
    rw [if_neg (by simp)]
    simp only [Bool.or_eq_false_iff, Bool.and_eq_false_iff] at hg
    obtain ⟨⟨hs, ha⟩, hl⟩ := hg
    constructor
    · intro h
      refine ⟨?_, ?_, hl, h⟩
      · rcases hs with h' | h'
        · exact Or.inl (by simpa using h')
        · exact Or.inr (by simpa using h')
      · rcases ha with h' | h'
        · exact Or.inl (by simpa using h')
        · exact Or.inr (by simpa using h')
    · rintro ⟨-, -, -, h⟩
      exact h

theorem isPresent_mem_iff (p : Permission) (H : List Permission) :
    Permission.IsPresent p H = true ↔
      ∃ h, h ∈ H ∧ (h.Service = "*" ∨ h.Service = p.Service) ∧
        (h.Action = "*" ∨ h.Action = p.Action) ∧
        OwnershipLevel.Less h.OwnershipLevel p.OwnershipLevel = false ∧
        ResourceHierarchy.Contains h.ResourceHierarchy p.ResourceHierarchy = true := by
  rw [Permission.IsPresent, List.any_eq_true]
  constructor
  · rintro ⟨pp, hmem, hbody⟩
    exact ⟨pp, hmem, (isPresent_body_iff p pp).mp hbody⟩
  · rintro ⟨pp, hmem, hconds⟩
    exact ⟨pp, hmem, (isPresent_body_iff p pp).mpr hconds⟩

/-- Claim C1: `IsPresent(p, H)` is true iff a single held permission `h` in
`H` satisfies all four conditions — `h.Service` is `"*"` or equals
`p.Service`, `h.Action` is `"*"` or equals `p.Action`,
`h.OwnershipLevel.Less(p.OwnershipLevel)` is false, and
`h.ResourceHierarchy.Contains(p.ResourceHierarchy)` — with no aggregation
across multiple held permissions. -/
theorem claim_c1_isPresent (p : Permission) (H : List Permission) :
    Permission.IsPresent p H = true ↔
      ∃ h, h ∈ H ∧ (h.Service = "*" ∨ h.Service = p.Service) ∧
        (h.Action = "*" ∨ h.Action = p.Action) ∧
        OwnershipLevel.Less h.OwnershipLevel p.OwnershipLevel = false ∧
        ResourceHierarchy.Contains h.ResourceHierarchy p.ResourceHierarchy = true :=
  isPresent_mem_iff p H

/-- Witness for C1: the spec's scenario — a held wildcard-hierarchy grant
satisfies a deeper concrete candidate. -/
theorem claim_c1_isPresent_witness :
    Permission.IsPresent
      { Service := "maestro", OwnershipLevel := "RL", Action := "deploy",
        ResourceHierarchy := "maestro::sniper-3d::na::sniper3d-red" }
      [{ Service := "maestro", OwnershipLevel := "RL", Action := "deploy",
          ResourceHierarchy := "maestro::sniper-3d::*" }] = true :=
  (claim_c1_isPresent _ _).mpr
    ⟨{ Service := "maestro", OwnershipLevel := "RL", Action := "deploy",
        ResourceHierarchy := "maestro::sniper-3d::*" },
      by simp, Or.inr rfl, Or.inr rfl, by decide, by decide⟩

/-- Claim C7: `IsPresent` is monotone in the held set — adding grants never
revokes access — and held lists with the same elements (in particular
reorderings) yield the same boolean result. -/
theorem claim_c7_isPresent_monotone (p : Permission) (H H' : List Permission)
    (hsub : ∀ x, x ∈ H → x ∈ H') :
    (Permission.IsPresent p H = true → Permission.IsPresent p H' = true) ∧
    ((∀ x, x ∈ H' → x ∈ H) →
      Permission.IsPresent p H = Permission.IsPresent p H') := by
  have mono : ∀ (A B : List Permission), (∀ x, x ∈ A → x ∈ B) →
      Permission.IsPresent p A = true → Permission.IsPresent p B = true := by
    intro A B hAB h
    obtain ⟨pp, hmem, hc⟩ := (isPresent_mem_iff p A).mp h
    exact (isPresent_mem_iff p B).mpr ⟨pp, hAB pp hmem, hc⟩
  refine ⟨mono H H' hsub, ?_⟩
  intro hsub'
  cases hA : Permission.IsPresent p H with
  | true => rw [mono H H' hsub hA]
  | false =>
    cases hB : Permission.IsPresent p H' with
    | false => rfl
    | true =>
      rw [mono H' H hsub' hB] at hA
      simp at hA

/-- Witness for C7: a permission present under a one-grant list stays
present after a further, unrelated grant is added in front. -/
theorem claim_c7_isPresent_monotone_witness :
    Permission.IsPresent
      { Service := "s", OwnershipLevel := "RL", Action := "a",
        ResourceHierarchy := "r" }
      [{ Service := "other", OwnershipLevel := "RO", Action := "b",
          ResourceHierarchy := "q" },
        { Service := "s", OwnershipLevel := "RL", Action := "a",
          ResourceHierarchy := "r" }] = true :=
  (claim_c7_isPresent_monotone
      { Service := "s", OwnershipLevel := "RL", Action := "a",
        ResourceHierarchy := "r" }
      [{ Service := "s", OwnershipLevel := "RL", Action := "a",
          ResourceHierarchy := "r" }]
      [{ Service := "other", OwnershipLevel := "RO", Action := "b",
          ResourceHierarchy := "q" },
        { Service := "s", OwnershipLevel := "RL", Action := "a",
          ResourceHierarchy := "r" }]
      (by
        intro x hx
        simp only [List.mem_singleton] at hx
        subst hx
        simp)).1 (by decide)

/-! ## `usecases/permissions.go`: attribution workflow

The repository implementations behind the usecase (`WithPGTx`,
`Permissions.Create`, `ServiceAccounts.ForEmails`) are external
collaborators; they are modelled from the spec below, while the two
cross-product loops are embedded from `usecases/permissions.go`. -/

/-- Modelled from the spec: a ServiceAccount is identified by id, name,
authentication material, email and a base-role identifier; attribution by
email uses only the base-role identifier. -/
structure ServiceAccount where
  ID : String := ""
  Name : String := ""
  Email : String := ""
  BaseRoleID : String := ""
deriving DecidableEq, Repr

/-- Modelled from the spec: the store's `create` operation for permission
records, a potentially failing synchronous call; abstracted as any function
from the currently stored records and the new record to an error or the new
stored records. -/
abbrev CreateOp := List Permission → Permission → Except String (List Permission)

/-- Modelled from the spec: `withTransaction(work)` runs `work` against a
scoped repository handle and commits or rolls back based on `work`'s
returned error — the observable store state after the call is `work`'s
result on success and the original state on failure, and the error is
propagated unchanged. -/
def WithPGTx (st : List Permission)
    (work : List Permission → Except String (List Permission)) :
    List Permission × Option String :=
  match work st with
  | Except.ok st' => (st', none)
  | Except.error e => (st, some e)

/-- Inner loop shared by `Attribute` and `AttributeToEmails`: for each
permission template, set `RoleID` on the loop copy and call the store's
create, aborting on the first error. -/
def attributeInner (create : CreateOp) (roleID : String) :
    List Permission → List Permission → Except String (List Permission)
  | [], st => Except.ok st
  | permission :: rest, st =>
    match create st { permission with RoleID := roleID } with
    | Except.error e => Except.error e
    | Except.ok st' => attributeInner create roleID rest st'

/-- The transaction body of `Attribute`: outer loop over `pa.RolesIDs`. -/
def attributeWork (create : CreateOp) (rolesIDs : List String)
    (perms : List Permission) (st : List Permission) :
    Except String (List Permission) :=
  match rolesIDs with
  | [] => Except.ok st
  | roleID :: rest =>
    match attributeInner create roleID perms st with
    | Except.error e => Except.error e
    | Except.ok st' => attributeWork create rest perms st'

/-- The transaction body of `AttributeToEmails`: outer loop over the
resolved service accounts, using each account's `BaseRoleID`. -/
def attributeEmailsWork (create : CreateOp) (sas : List ServiceAccount)
    (perms : List Permission) (st : List Permission) :
    Except String (List Permission) :=
  match sas with
  | [] => Except.ok st
  | sa :: rest =>
    match attributeInner create sa.BaseRoleID perms st with
    | Except.error e => Except.error e
    | Except.ok st' => attributeEmailsWork create rest perms st'

/-- `PermissionsAttribute` is the payload of PUT /permissions/attribute. -/
structure PermissionsAttribute where
  RolesIDs : List String := []
  PermissionsStrings : List String := []
  Permissions : List Permission := []

/-- `Attribute(pa)`: run the roles × permissions cross product of creates
inside one transaction. -/
def Attribute (create : CreateOp) (st : List Permission)
    (pa : PermissionsAttribute) : List Permission × Option String :=
  WithPGTx st (attributeWork create pa.RolesIDs pa.Permissions)

/-- `PermissionsAttributeToEmails` is the payload of
PUT /permissions/attribute_to_emails. -/
structure PermissionsAttributeToEmails where
  Emails : List String := []
  PermissionsStrings : List String := []
  Permissions : List Permission := []

/-- `AttributeToEmails(pa)`: resolve the emails to service accounts
(returning the resolution error without opening the transaction when it
fails), then run the cross product over their base roles inside one
transaction. `forEmails` models the spec's
resolve-service-accounts-by-emails store operation. -/
def AttributeToEmails (create : CreateOp)
    (forEmails : List String → Except String (List ServiceAccount))
    (st : List Permission) (pa : PermissionsAttributeToEmails) :
    List Permission × Option String :=
  match forEmails pa.Emails with
  | Except.error e => (st, some e)
  | Except.ok sas => WithPGTx st (attributeEmailsWork create sas pa.Permissions)

/-- The flat role-major sequence of records the cross product writes: for
each role id, each template with only `RoleID` replaced. -/
def attributionRecords (rolesIDs : List String) (perms : List Permission) :
    List Permission :=
  rolesIDs.flatMap fun roleID => perms.map fun p => { p with RoleID := roleID }

/-- Issuing a flat sequence of creates, aborting on the first error. -/
def createSeq (create : CreateOp) :
    List Permission → List Permission → Except String (List Permission)
  | [], st => Except.ok st
  | r :: rest, st =>
    match create st r with
    | Except.error e => Except.error e
    | Except.ok st' => createSeq create rest st'

theorem attributeInner_eq_createSeq (create : CreateOp) (roleID : String) :
    ∀ (perms st : List Permission),
      attributeInner create roleID perms st
        = createSeq create (perms.map fun p => { p with RoleID := roleID }) st := by
  intro perms
  induction perms with
  | nil => intro st; rfl
  | cons p rest ih =>
    intro st
    rw [show attributeInner create roleID (p :: rest) st
        = (match create st { p with RoleID := roleID } with
          | Except.error e => Except.error e
          | Except.ok st' => attributeInner create roleID rest st') from rfl]
    rw [List.map_cons]
    rw [show createSeq create ({ p with RoleID := roleID } ::
          rest.map fun q => { q with RoleID := roleID }) st
        = (match create st { p with RoleID := roleID } with
          | Except.error e => Except.error e
          | Except.ok st' =>
              createSeq create (rest.map fun q => { q with RoleID := roleID }) st')
        from rfl]
    cases create st { p with RoleID := roleID } with
    | error e => rfl
    | ok st' => exact ih st'

theorem createSeq_append (create : CreateOp) :
    ∀ (a b st : List Permission),
      createSeq create (a ++ b) st
        = (match createSeq create a st with
          | Except.error e => Except.error e
          | Except.ok st' => createSeq create b st') := by
  intro a
  induction a with
  | nil => intro b st; rfl
  | cons r rest ih =>
    intro b st
    rw [List.cons_append]
    rw [show createSeq create (r :: (rest ++ b)) st
        = (match create st r with
          | Except.error e => Except.error e
          | Except.ok st' => createSeq create (rest ++ b) st') from rfl]
    rw [show createSeq create (r :: rest) st
        = (match create st r with
          | Except.error e => Except.error e
          | Except.ok st' => createSeq create rest st') from rfl]
    cases create st r with
    | error e => rfl
    | ok st' => exact ih b st'

theorem attributeWork_eq_createSeq (create : CreateOp) :
    ∀ (rolesIDs : List String) (perms st : List Permission),
      attributeWork create rolesIDs perms st
        = createSeq create (attributionRecords rolesIDs perms) st := by
  intro rolesIDs
  induction rolesIDs with
  | nil => intro perms st; rfl
  | cons roleID rest ih =>
    intro perms st
    rw [show attributeWork create (roleID :: rest) perms st
        = (match attributeInner create roleID perms st with
          | Except.error e => Except.error e
          | Except.ok st' => attributeWork create rest perms st') from rfl]
    rw [show attributionRecords (roleID :: rest) perms
        = (perms.map fun p => { p with RoleID := roleID })
            ++ attributionRecords rest perms by
        simp [attributionRecords]]
    rw [createSeq_append, ← attributeInner_eq_createSeq]
    cases attributeInner create roleID perms st with
    | error e => rfl
    | ok st' => exact ih perms st'

theorem attributeEmailsWork_eq_createSeq (create : CreateOp) :
    ∀ (sas : List ServiceAccount) (perms st : List Permission),
      attributeEmailsWork create sas perms st
        = createSeq create
            (attributionRecords (sas.map ServiceAccount.BaseRoleID) perms) st := by
  intro sas
  induction sas with
  | nil => intro perms st; rfl
  | cons sa rest ih =>
    intro perms st
    rw [show attributeEmailsWork create (sa :: rest) perms st
        = (match attributeInner create sa.BaseRoleID perms st with
          | Except.error e => Except.error e
          | Except.ok st' => attributeEmailsWork create rest perms st') from rfl]
    rw [show attributionRecords ((sa :: rest).map ServiceAccount.BaseRoleID) perms
        = (perms.map fun p => { p with RoleID := sa.BaseRoleID })
            ++ attributionRecords (rest.map ServiceAccount.BaseRoleID) perms by
        simp [attributionRecords]]
    rw [createSeq_append, ← attributeInner_eq_createSeq]
    cases attributeInner create sa.BaseRoleID perms st with
    | error e => rfl
    | ok st' => exact ih perms st'

theorem attributionRecords_length :
    ∀ (rolesIDs : List String) (perms : List Permission),
      (attributionRecords rolesIDs perms).length
        = rolesIDs.length * perms.length := by
  intro rolesIDs
  induction rolesIDs with
  | nil => intro perms; simp [attributionRecords]
  | cons roleID rest ih =>
    intro perms
    simp only [attributionRecords, List.flatMap_cons, List.length_append,
      List.length_map, List.length_cons]
    rw [show (rest.flatMap fun r => perms.map fun p => { p with RoleID := r })
        = attributionRecords rest perms from rfl]
    rw [ih perms]
    ring

/-- Claim C9: `Attribute`'s transaction body issues exactly one create per
(role id, permission template) pair, in role-major order — it equals the
flat sequence of creates over `attributionRecords` (whose length is
`#roles * #templates`) — and likewise `AttributeToEmails`'s body over the
resolved accounts' base-role ids; every issued record equals its template
in all fields except `RoleID`, which is set to the target role id. -/
theorem claim_c9_crossProduct (create : CreateOp) (rolesIDs : List String)
    (perms st : List Permission) (sas : List ServiceAccount) :
    attributeWork create rolesIDs perms st
        = createSeq create (attributionRecords rolesIDs perms) st ∧
    attributeEmailsWork create sas perms st
        = createSeq create
            (attributionRecords (sas.map ServiceAccount.BaseRoleID) perms) st ∧
    (attributionRecords rolesIDs perms).length
        = rolesIDs.length * perms.length ∧
    (∀ (roleID : String) (p : Permission),
      ({ p with RoleID := roleID } : Permission).RoleID = roleID ∧
      ({ p with RoleID := roleID } : Permission).ID = p.ID ∧
      ({ p with RoleID := roleID } : Permission).Service = p.Service ∧
      ({ p with RoleID := roleID } : Permission).OwnershipLevel = p.OwnershipLevel ∧
      ({ p with RoleID := roleID } : Permission).Action = p.Action ∧
      ({ p with RoleID := roleID } : Permission).ResourceHierarchy
          = p.ResourceHierarchy ∧
      ({ p with RoleID := roleID } : Permission).Alias = p.Alias) :=
  ⟨attributeWork_eq_createSeq create rolesIDs perms st,
    attributeEmailsWork_eq_createSeq create sas perms st,
    attributionRecords_length rolesIDs perms,
    fun _ _ => ⟨rfl, rfl, rfl, rfl, rfl, rfl, rfl⟩⟩

/-- Witness for C9: with 2 roles and 2 templates the issued records are the
four role-major clones, and the loop agrees with the flat sequence under an
always-appending store. -/
theorem claim_c9_crossProduct_witness :
    attributionRecords ["r1", "r2"]
        [{ Service := "s", OwnershipLevel := "RL", Action := "a",
            ResourceHierarchy := "x" },
          { Service := "s", OwnershipLevel := "RO", Action := "b",
            ResourceHierarchy := "y" }]
      = [{ RoleID := "r1", Service := "s", OwnershipLevel := "RL",
            Action := "a", ResourceHierarchy := "x" },
          { RoleID := "r1", Service := "s", OwnershipLevel := "RO",
            Action := "b", ResourceHierarchy := "y" },
          { RoleID := "r2", Service := "s", OwnershipLevel := "RL",
            Action := "a", ResourceHierarchy := "x" },
          { RoleID := "r2", Service := "s", OwnershipLevel := "RO",
            Action := "b", ResourceHierarchy := "y" }] ∧
    attributeWork (fun st p => Except.ok (st ++ [p])) ["r1", "r2"]
        [{ Service := "s", OwnershipLevel := "RL", Action := "a",
            ResourceHierarchy := "x" },
          { Service := "s", OwnershipLevel := "RO", Action := "b",
            ResourceHierarchy := "y" }] []
      = createSeq (fun st p => Except.ok (st ++ [p]))
          (attributionRecords ["r1", "r2"]
            [{ Service := "s", OwnershipLevel := "RL", Action := "a",
                ResourceHierarchy := "x" },
              { Service := "s", OwnershipLevel := "RO", Action := "b",
                ResourceHierarchy := "y" }]) [] :=
  ⟨by decide,
    (claim_c9_crossProduct (fun st p => Except.ok (st ++ [p])) ["r1", "r2"]
      [{ Service := "s", OwnershipLevel := "RL", Action := "a",
          ResourceHierarchy := "x" },
        { Service := "s", OwnershipLevel := "RO", Action := "b",
          ResourceHierarchy := "y" }] [] []).1⟩

/-- Claim C3: the whole cross product runs inside one transaction — if any
single create fails, the transaction rolls back, the error is returned, and
the observable store is exactly the pre-call store (no permission from the
call is kept, previously-stored ones untouched); likewise for
`AttributeToEmails` after resolution. -/
theorem claim_c3_atomicity (create : CreateOp) (st : List Permission)
    (e : String) :
    (∀ pa : PermissionsAttribute,
      attributeWork create pa.RolesIDs pa.Permissions st = Except.error e →
      Attribute create st pa = (st, some e)) ∧
    (∀ (forEmails : List String → Except String (List ServiceAccount))
        (pa : PermissionsAttributeToEmails) (sas : List ServiceAccount),
      forEmails pa.Emails = Except.ok sas →
      attributeEmailsWork create sas pa.Permissions st = Except.error e →
      AttributeToEmails create forEmails st pa = (st, some e)) := by
  constructor
  · intro pa h
    simp [Attribute, WithPGTx, h]
  · intro fe pa sas hfe h
    simp [AttributeToEmails, hfe, WithPGTx, h]

/-- Witness for C3: 2 roles × 2 templates against a store whose second
create fails — the call returns the error and the store holds zero of the
four permissions. -/
theorem claim_c3_atomicity_witness :
    Attribute
        (fun st p =>
          if 1 ≤ st.length then Except.error "db failure"
          else Except.ok (st ++ [p]))
        []
        { RolesIDs := ["r1", "r2"],
          Permissions :=
            [{ Service := "s", OwnershipLevel := "RL", Action := "a",
                ResourceHierarchy := "x" },
              { Service := "s", OwnershipLevel := "RO", Action := "b",
                ResourceHierarchy := "y" }] }
      = ([], some "db failure") :=
  (claim_c3_atomicity
      (fun st p =>
        if 1 ≤ st.length then Except.error "db failure"
        else Except.ok (st ++ [p]))
      [] "db failure").1
    { RolesIDs := ["r1", "r2"],
      Permissions :=
        [{ Service := "s", OwnershipLevel := "RL", Action := "a",
            ResourceHierarchy := "x" },
          { Service := "s", OwnershipLevel := "RO", Action := "b",
            ResourceHierarchy := "y" }] }
    rfl

/-- Claim C8: when email resolution fails, `AttributeToEmails` returns that
error with the store unchanged, before the transaction is opened — the
result is independent of the store's create operation, so zero permission
writes are performed. -/
theorem claim_c8_resolutionFailure (create : CreateOp)
    (forEmails : List String → Except String (List ServiceAccount))
    (st : List Permission) (pa : PermissionsAttributeToEmails) (e : String)
    (h : forEmails pa.Emails = Except.error e) :
    AttributeToEmails create forEmails st pa = (st, some e) := by
  simp [AttributeToEmails, h]

/-- Witness for C8: `"a@x.com"` has no matching account — the error is
returned and the store stays empty although the create always succeeds. -/
theorem claim_c8_resolutionFailure_witness :
    AttributeToEmails (fun st p => Except.ok (st ++ [p]))
        (fun _ => Except.error "Service Account not found for email a@x.com")
        []
        { Emails := ["a@x.com"],
          Permissions :=
            [{ Service := "s", OwnershipLevel := "RL", Action := "a",
                ResourceHierarchy := "x" }] }
      = ([], some "Service Account not found for email a@x.com") :=
  claim_c8_resolutionFailure (fun st p => Except.ok (st ++ [p]))
    (fun _ => Except.error "Service Account not found for email a@x.com")
    []
    { Emails := ["a@x.com"],
      Permissions :=
        [{ Service := "s", OwnershipLevel := "RL", Action := "a",
            ResourceHierarchy := "x" }] }
    "Service Account not found for email a@x.com" rfl
